import Mathlib

/-!
# Verification of `tdo_core` (`src/tdo.rs`)

Shallow embedding of the `Tdo` container and its operations. Rust `&mut self`
methods are modelled as state-passing functions; fallible methods return an
`Except` result paired with the post-state. Machine integers (`u32` item ids)
are `Nat` with explicit `< 2^32` bounds where the source enforces them.
File I/O is modelled by an abstract file content: `none` for a path that
cannot be opened, otherwise a `FileContent` distinguishing non-UTF-8 bytes,
UTF-8 text that is not valid JSON, and a parsed JSON tree. Unicode
lowercasing (`str::to_lowercase`) is modelled by `String.toLower`; all names
appearing in the claims are ASCII, where the two agree.

Operations whose Rust source can panic (the `unwrap()` calls in
`update_json`) return `Option`, with `none` modelling a panic.
-/

/-- Modelled from the spec: `Todo` (its file `src/todo.rs` is not part of this
tree). An item has an unsigned integer id, a text name and a completion flag
that defaults to false (spec section 3, Item). -/
structure Todo where
  id : Nat
  name : String
  done : Bool
deriving DecidableEq, Repr

/-- Modelled from the spec: the `Todo` constructor takes id and name, `done`
starts false. -/
def Todo.new (id : Nat) (name : String) : Todo :=
  ⟨id, name, false⟩

/-- Modelled from the spec: mark an item as done, in place. -/
def Todo.set_done (t : Todo) : Todo :=
  { t with done := true }

/-- Modelled from the spec: `TodoList` (its file `src/list.rs` is not part of
this tree). A list has a name and an ordered sequence of items, insertion
order preserved (spec section 3, List). The field is called `list` as in the
source's `self.lists[index].add` / serialization layout. -/
structure TodoList where
  name : String
  list : List Todo
deriving DecidableEq, Repr

/-- Modelled from the spec: create an empty list with the given name. -/
def TodoList.new (name : String) : TodoList :=
  ⟨name, []⟩

/-- Modelled from the spec: the default list is the empty list named
"default". -/
def TodoList.mkDefault : TodoList :=
  TodoList.new "default"

/-- Modelled from the spec: append an item to a list's item sequence. -/
def TodoList.add (l : TodoList) (t : Todo) : TodoList :=
  { l with list := l.list ++ [t] }

/-- Mark the first item with the given id as done (helper for
`TodoList.done_id`). -/
def markFirstDone (id : Nat) : List Todo → List Todo
  | [] => []
  | t :: ts => if t.id == id then t.set_done :: ts else t :: markFirstDone id ts

/-- Modelled from the spec: a list's own done-marking marks the first item
with a matching id as done and silently does nothing if the id is absent
(spec section 4.6, `done_id`). -/
def TodoList.done_id (l : TodoList) (id : Nat) : TodoList :=
  { l with list := markFirstDone id l.list }

/-- Remove the first item with the given id (helper for
`TodoList.remove_id`). -/
def removeFirstId (id : Nat) : List Todo → List Todo
  | [] => []
  | t :: ts => if t.id == id then ts else t :: removeFirstId id ts

/-- Modelled from the spec: remove the first item with a matching id within
the list; no error if absent (spec section 4.6, `remove_id`). -/
def TodoList.remove_id (l : TodoList) (id : Nat) : TodoList :=
  { l with list := removeFirstId id l.list }

/-- Modelled from the spec: remove all items marked done, in place (spec
section 4.6, `clean_lists`). -/
def TodoList.clean (l : TodoList) : TodoList :=
  { l with list := l.list.filter (fun t => !t.done) }

/-- The error kinds of `error.rs` (`StorageError` and `TodoError`, both
wrapped into the crate's `ErrorKind`), flattened into one enumeration. -/
inductive TdoError where
  | NameAlreadyExists
  | CanNotRemoveDefault
  | NoSuchList
  | FileNotFound
  | SaveFailure
  | FileCorrupted
  | UnableToConvert
deriving DecidableEq, Repr

/-- Modelled from the spec: the crate version string baked in by
`env!("CARGO_PKG_VERSION")` (the manifest is not part of this tree); its
concrete value is informational and never inspected. -/
def VERSION : String := "0.3.0"

/-- `Tdo` (`src/tdo.rs` lines 16-22): a vector of todo lists and the version
tag of the last dump. -/
structure Tdo where
  lists : List TodoList
  version : String
deriving DecidableEq, Repr

/-- `Tdo::new` (lines 34-39): one default list plus the crate version. -/
def Tdo.new : Tdo :=
  ⟨[TodoList.mkDefault], VERSION⟩

/-- First index satisfying a predicate (Rust `Iterator::position`). -/
def findIndex (p : α → Bool) : List α → Option Nat
  | [] => none
  | x :: xs =>
    if p x then some 0 else Option.map (fun n => n + 1) (findIndex p xs)

/-- Replace the element at an index by applying `f` (Rust
`self.lists[index] = ...` style in-place mutation at an index). -/
def updateAt : Nat → (α → α) → List α → List α
  | _, _, [] => []
  | 0, f, x :: xs => f x :: xs
  | n + 1, f, x :: xs => x :: updateAt n f xs

/-- Rust `str::to_lowercase`, modelled characterwise (all names in the
claims are ASCII, where characterwise and Unicode lowercasing agree). -/
def lowerStr (s : String) : String :=
  ⟨s.data.map Char.toLower⟩

/-- `Tdo::get_list_index` (lines 156-163): position of the first list whose
lowercased name equals the lowercased query. -/
def Tdo.get_list_index (t : Tdo) (name : String) : Except TdoError Nat :=
  match findIndex (fun x => lowerStr x.name == lowerStr name) t.lists with
  | some index => .ok index
  | none => .error .NoSuchList

/-- `Tdo::add_list` (lines 92-100): fail with `NameAlreadyExists` when the
case-insensitive lookup finds the name, otherwise push the list. -/
def Tdo.add_list (t : Tdo) (l : TodoList) : Except TdoError Unit × Tdo :=
  match t.get_list_index l.name with
  | .ok _ => (.error .NameAlreadyExists, t)
  | .error _ => (.ok (), { t with lists := t.lists ++ [l] })

/-- `Tdo::remove_list` (lines 103-115): the guard compares `list_name`
against the literal `"default"` exactly (case-sensitively); otherwise the
case-insensitive lookup decides, and a found index is removed. -/
def Tdo.remove_list (t : Tdo) (list_name : String) : Except TdoError Unit × Tdo :=
  if list_name == "default" then
    (.error .CanNotRemoveDefault, t)
  else
    match t.get_list_index list_name with
    | .ok index => (.ok (), { t with lists := t.lists.eraseIdx index })
    | .error _ => (.error .NoSuchList, t)

/-- `Tdo::add_todo` (lines 121-129): resolve the optional list name to
"default", then append the todo to the list at the found index, or propagate
the lookup error. -/
def Tdo.add_todo (t : Tdo) (list_name : Option String) (todo : Todo) :
    Except TdoError Unit × Tdo :=
  match t.get_list_index (list_name.getD "default") with
  | .ok index => (.ok (), { t with lists := updateAt index (fun l => l.add todo) t.lists })
  | .error x => (.error x, t)

/-- `Tdo::done_id` (lines 134-138): call `done_id` on every list in place,
discarding the per-list results. -/
def Tdo.done_id (t : Tdo) (id : Nat) : Tdo :=
  { t with lists := t.lists.map (fun l => l.done_id id) }

/-- `Tdo::remove_id` (lines 143-147): the loop iterates over
`self.to_owned().lists.into_iter()` — a snapshot clone — and calls
`remove_id` on each cloned list, discarding it; the fold carries the
original state through unchanged, since only the clones are mutated. -/
def Tdo.remove_id (t : Tdo) (id : Nat) : Tdo :=
  (t.lists.map (fun l => l.remove_id id)).foldl (fun s _ => s) t

/-- `Tdo::clean_lists` (lines 150-154): call `clean` on every list. -/
def Tdo.clean_lists (t : Tdo) : Tdo :=
  { t with lists := t.lists.map (fun l => l.clean) }

/-- A JSON tree, shared model of the values handled by `serde_json` and the
`json` crate (numbers restricted to integers; no claim involves
non-integral numbers). -/
inductive Json where
  | null
  | bool (b : Bool)
  | num (n : Int)
  | str (s : String)
  | arr (elems : List Json)
  | obj (entries : List (String × Json))

/-- `JsonValue::entries` of the `json` crate: the key/value pairs of an
object in insertion order, and the empty sequence for any other value. -/
def Json.entries : Json → List (String × Json)
  | .obj es => es
  | _ => []

/-- `JsonValue::pop` of the `json` crate: on an array, remove and return the
last element (`Null` when empty); on any other value, return `Null` and
leave the value unchanged. The pair is (popped value, remaining value). -/
def Json.pop : Json → Json × Json
  | .arr es =>
    match es.getLast? with
    | some x => (x, .arr es.dropLast)
    | none => (.null, .arr [])
  | j => (.null, j)

/-- Rust `str::parse::<u32>`: an optional leading '+', then one or more
decimal digits, value below 2^32. -/
def parseU32 (s : String) : Option Nat :=
  let cs :=
    match s.toList with
    | '+' :: rest => rest
    | cs => cs
  if cs ≠ [] ∧ cs.all (fun c => c.isDigit) then
    let n := cs.foldl (fun acc c => acc * 10 + (c.toNat - 48)) 0
    if n < 4294967296 then some n else none
  else none

/-- One legacy item (`update_json` lines 180-195): parse the key as a `u32`,
pop the trailing element (must be a boolean, taken as `done`), pop the next
trailing element (must be text, taken as the name); `none` models the
`UnableToConvert` early return. -/
def legacyTodo (key : String) (v : Json) : Option Todo :=
  match parseU32 key with
  | none => none
  | some tdo_id =>
    match Json.pop v with
    | (.bool done, v1) =>
      match (Json.pop v1).1 with
      | .str tdo_name =>
        let todo := Todo.new tdo_id tdo_name
        some (if done then todo.set_done else todo)
      | _ => none
    | _ => none

/-- The inner loop of `update_json` (lines 179-197): convert the entries of
one legacy list object in order, aborting with `UnableToConvert` on the
first bad entry. -/
def legacyItems : List (String × Json) → Except TdoError (List Todo)
  | [] => .ok []
  | (key, v) :: rest =>
    match legacyTodo key v with
    | some todo =>
      match legacyItems rest with
      | .ok todos => .ok (todo :: todos)
      | .error e => .error e
    | none => .error .UnableToConvert

/-- The outer loop of `update_json` (lines 177-199): one `TodoList` per
top-level entry, named after its key, holding the converted items. -/
def legacyLists : List (String × Json) → Except TdoError (List TodoList)
  | [] => .ok []
  | (name, v) :: rest =>
    match legacyItems v.entries with
    | .ok todos =>
      match legacyLists rest with
      | .ok ls => .ok (⟨name, todos⟩ :: ls)
      | .error e => .error e
    | .error e => .error e

/-- Content of an opened file, as seen by the two JSON readers. -/
inductive FileContent where
  | notUtf8
  | text
  | json (j : Json)

/-- First value bound to a key in an object's entry sequence. -/
def lookupKey (key : String) : List (String × Json) → Option Json
  | [] => none
  | (k, v) :: rest => if k == key then some v else lookupKey key rest

/-- Traverse a list under `Option`, failing if any element fails. -/
def traverseOpt (f : α → Option β) : List α → Option (List β)
  | [] => some []
  | x :: xs =>
    match f x, traverseOpt f xs with
    | some y, some ys => some (y :: ys)
    | _, _ => none

/-- Mirror of serde's derived deserializer for `Todo`: an object with an
`id` field holding a number in `u32` range, a `name` string and a `done`
boolean. -/
def decodeTodo (j : Json) : Option Todo :=
  match j with
  | .obj es =>
    match lookupKey "id" es, lookupKey "name" es, lookupKey "done" es with
    | some (.num n), some (.str s), some (.bool b) =>
      if 0 ≤ n ∧ n < 4294967296 then some ⟨n.toNat, s, b⟩ else none
    | _, _, _ => none
  | _ => none

/-- Mirror of serde's derived deserializer for `TodoList`: an object with a
`name` string and a `list` array of items. -/
def decodeTodoList (j : Json) : Option TodoList :=
  match j with
  | .obj es =>
    match lookupKey "name" es, lookupKey "list" es with
    | some (.str s), some (.arr items) =>
      match traverseOpt decodeTodo items with
      | some todos => some ⟨s, todos⟩
      | none => none
    | _, _ => none
  | _ => none

/-- Mirror of serde's derived deserializer for `Tdo`: an object with a
`lists` array of `TodoList`s and a `version` string. -/
def decodeTdo (j : Json) : Option Tdo :=
  match j with
  | .obj es =>
    match lookupKey "lists" es, lookupKey "version" es with
    | some (.arr ls), some (.str v) =>
      match traverseOpt decodeTodoList ls with
      | some lists => some ⟨lists, v⟩
      | none => none
    | _, _ => none
  | _ => none

/-- `serde_json::from_reader::<Tdo>` on the opened file: fails on non-UTF-8
bytes and on text that is not valid JSON, otherwise decodes the parsed
tree as the current format. -/
def serdeRead (c : FileContent) : Option Tdo :=
  match c with
  | .json j => decodeTdo j
  | _ => none

/-- `update_json` (lines 166-204), given the reopened file's content. The
outer `Option` models the possible panic: `read_to_string(&mut data).unwrap()`
aborts on non-UTF-8 bytes (modelled as `none`). For UTF-8 text, `parse`
failure yields `FileCorrupted`; otherwise the legacy conversion runs on the
tree's entries (empty for a non-object root) and the result is tagged with
the current crate version. -/
def update_json (c : FileContent) : Option (Except TdoError Tdo) :=
  match c with
  | .notUtf8 => none
  | .text => some (.error .FileCorrupted)
  | .json j =>
    match legacyLists j.entries with
    | .ok lists => some (.ok ⟨lists, VERSION⟩)
    | .error e => some (.error e)

/-- Mirror of serde's derived serializer for `Todo`. -/
def encodeTodo (t : Todo) : Json :=
  .obj [("id", .num t.id), ("name", .str t.name), ("done", .bool t.done)]

/-- Mirror of serde's derived serializer for `TodoList`. -/
def encodeTodoList (l : TodoList) : Json :=
  .obj [("name", .str l.name), ("list", .arr (l.list.map encodeTodo))]

/-- Mirror of serde's derived serializer for `Tdo` (the layout written by
`serde_json::to_writer_pretty`). -/
def encodeTdo (t : Tdo) : Json :=
  .obj [("lists", .arr (t.lists.map encodeTodoList)), ("version", .str t.version)]

/-- `Tdo::load` (lines 52-63), with the open result as input: `none` models
a path that cannot be opened (`FileNotFound`, the legacy path is never
attempted); otherwise the current-format read is tried first and
`update_json` handles its failure. The outer `Option` of the result models
the panic `update_json` can raise. -/
def Tdo.load (file : Option FileContent) : Option (Except TdoError Tdo) :=
  match file with
  | none => some (.error .FileNotFound)
  | some c =>
    match serdeRead c with
    | some tdo => some (.ok tdo)
    | none => update_json c

/-- `Tdo::save` (lines 78-89): when the file can be created, write the
serialized container (serialization errors are discarded in the source, and
serialization of this data type cannot fail) and succeed; otherwise fail
with `SaveFailure` writing nothing. The pair is (result, written content). -/
def Tdo.save (t : Tdo) (canCreate : Bool) :
    Except TdoError Unit × Option FileContent :=
  if canCreate then (.ok (), some (.json (encodeTdo t)))
  else (.error .SaveFailure, none)

lemma foldl_drop_const (a : α) (l : List β) :
    l.foldl (fun s _ => s) a = a := by
  induction l generalizing a with
  | nil => rfl
  | cons x xs ih => exact ih a

/-- Claim C1: `remove_id` iterates over a snapshot copy of the list
collection, so for every container and every id it leaves the container's
observable state unchanged. -/
theorem remove_id_frame (t : Tdo) (id : Nat) : t.remove_id id = t := by
  unfold Tdo.remove_id
  exact foldl_drop_const t (t.lists.map (fun l => l.remove_id id))

/-- Claim C2, counterexample: `remove_list "DEFAULT"` does not fail with
`CanNotRemoveDefault` — the exact-match guard only catches the lowercase
spelling, and the case-insensitive lookup then removes the default list;
moreover the legacy importer produces containers with no "default" list at
all. -/
theorem remove_list_default_cex :
    Tdo.new.remove_list "DEFAULT" = (.ok (), ⟨[], VERSION⟩) ∧
    update_json (.json (.obj [("work", .obj [])])) =
      some (.ok ⟨[⟨"work", []⟩], VERSION⟩) := by
  constructor <;> rfl

/-- Claim C6: the legacy importer, on the documented example input, yields
one list "work" with items (1, "buy milk", not done) and
(2, "ship release", done). -/
theorem legacy_import_example :
    update_json (.json (.obj [("work", .obj
        [("1", .arr [.str "buy milk", .bool false]),
         ("2", .arr [.str "ship release", .bool true])])])) =
      some (.ok ⟨[⟨"work", [⟨1, "buy milk", false⟩, ⟨2, "ship release", true⟩]⟩],
        VERSION⟩) := by
  rfl

/-- Claim C7: an unopenable path fails with `FileNotFound` without reaching
the legacy importer; whenever the current-format read fails on an opened
file, `load` returns exactly `update_json`'s result on that content; and on
UTF-8 text that is not valid JSON that result is `FileCorrupted`. -/
theorem load_fallback :
    Tdo.load none = some (.error .FileNotFound) ∧
    (∀ c : FileContent, serdeRead c = none → Tdo.load (some c) = update_json c) ∧
    update_json .text = some (.error .FileCorrupted) := by
  refine ⟨rfl, fun c h => ?_, rfl⟩
  simp [Tdo.load, h]

/-- Witness for C7 at a concrete content: text that is not valid JSON. -/
theorem load_fallback_witness :
    Tdo.load (some .text) = some (.error .FileCorrupted) := by
  have h := load_fallback.2.1 FileContent.text rfl
  rw [h]
  exact load_fallback.2.2

/-- Claim C8, evaluation at the failing input: on a file whose bytes are not
valid UTF-8, the current-format read fails and `update_json`'s
`read_to_string(..).unwrap()` panics (modelled as `none`) instead of
returning an error kind. -/
theorem load_panic_non_utf8 : Tdo.load (some .notUtf8) = none := rfl

lemma markFirstDone_filter (x : Nat) (l : List Todo)
    (hdone : ∀ td ∈ l, td.done = false)
    (hnodup : (l.map Todo.id).Nodup) :
    (markFirstDone x l).filter (fun td => !td.done) =
      l.filter (fun td => !(td.id == x)) := by
  induction l with
  | nil => rfl
  | cons td ts ih =>
    simp only [List.map_cons, List.nodup_cons, List.mem_map] at hnodup
    by_cases h : td.id = x
    · have hts : ∀ td' ∈ ts, td'.id ≠ x := by
        intro td' hmem heq
        exact hnodup.1 ⟨td', hmem, heq ▸ h.symm ▸ rfl⟩
      have h1 : ts.filter (fun td => !td.done) = ts :=
        List.filter_eq_self.mpr (fun a ha => by
          simp [hdone a (List.mem_cons_of_mem td ha)])
      have h2 : ts.filter (fun td => !(td.id == x)) = ts :=
        List.filter_eq_self.mpr (fun a ha => by simp [hts a ha])
      simp [markFirstDone, h, Todo.set_done, List.filter, h1, h2]
    · have htd : td.done = false := hdone td (List.mem_cons_self td ts)
      have hbe : (td.id == x) = false := beq_eq_false_iff_ne.mpr h
      have ihr := ih (fun a ha => hdone a (List.mem_cons_of_mem td ha)) hnodup.2
      simp [markFirstDone, h, List.filter, htd, ihr, hbe]

/-- Claim C3, counterexample: an item with id 2 that was already marked done
is removed by `done_id 1` followed by `clean_lists`, although its id is not
1 — `clean_lists` removes all done items, not only the freshly marked
ones. -/
theorem done_clean_cex :
    ((((⟨[⟨"default", [⟨2, "milk", true⟩]⟩], VERSION⟩ : Tdo).done_id 1).clean_lists) =
      ⟨[⟨"default", []⟩], VERSION⟩) ∧ (2 : Nat) ≠ 1 := by
  constructor
  · rfl
  · decide

/-- Claim C3, amended: provided no item is already marked done and no list
holds two items with the same id, `done_id x` followed by `clean_lists`
removes exactly the items whose id is `x` from every list, leaving all other
items present, unchanged and in order (and the version tag unchanged). -/
theorem done_clean_amended (t : Tdo) (x : Nat)
    (hdone : ∀ l ∈ t.lists, ∀ td ∈ l.list, td.done = false)
    (hnodup : ∀ l ∈ t.lists, (l.list.map Todo.id).Nodup) :
    ((t.done_id x).clean_lists).lists =
      t.lists.map (fun l => { l with list := l.list.filter (fun td => !(td.id == x)) }) ∧
    ((t.done_id x).clean_lists).version = t.version := by
  refine ⟨?_, rfl⟩
  simp only [Tdo.done_id, Tdo.clean_lists, List.map_map]
  refine List.map_congr_left (fun l hl => ?_)
  simp only [Function.comp_apply, TodoList.clean, TodoList.done_id]
  exact congrArg (fun xs => TodoList.mk l.name xs)
    (markFirstDone_filter x l.list (hdone l hl) (hnodup l hl))

/-- Witness for C3 at a concrete container: two not-done items with distinct
ids; `done_id 1` then `clean_lists` removes exactly the item with id 1. -/
theorem done_clean_witness :
    ((((⟨[⟨"default", [⟨1, "a", false⟩, ⟨2, "b", false⟩]⟩], VERSION⟩ : Tdo).done_id 1).clean_lists).lists =
      [⟨"default", [⟨2, "b", false⟩]⟩]) := by
  have h := done_clean_amended ⟨[⟨"default", [⟨1, "a", false⟩, ⟨2, "b", false⟩]⟩], VERSION⟩ 1
    (by decide) (by decide)
  rw [h.1]
  rfl

/-- The spec's list-name uniqueness invariant: no two lists of the container
have names that compare equal case-insensitively. -/
def NamesOk (t : Tdo) : Prop :=
  (t.lists.map (fun l => lowerStr l.name)).Nodup

instance (t : Tdo) : Decidable (NamesOk t) :=
  inferInstanceAs (Decidable ((t.lists.map (fun l => lowerStr (TodoList.name l))).Nodup))

lemma findIndex_eq_none_iff (p : α → Bool) (l : List α) :
    findIndex p l = none ↔ ∀ a ∈ l, p a = false := by
  induction l with
  | nil => simp [findIndex]
  | cons x xs ih =>
    by_cases h : p x
    · simp [findIndex, h]
    · simp only [findIndex, h, if_neg, Bool.not_eq_true, List.mem_cons]
      rw [Option.map_eq_none']
      constructor
      · intro hn a ha
        rcases ha with rfl | ha
        · simpa using h
        · exact (ih.mp hn) a ha
      · intro hall
        exact ih.mpr (fun a ha => hall a (Or.inr ha))

lemma map_updateAt_eq (f : α → α) (g : α → β) (hf : ∀ a, g (f a) = g a)
    (i : Nat) (l : List α) : (updateAt i f l).map g = l.map g := by
  induction l generalizing i with
  | nil => simp [updateAt]
  | cons x xs ih =>
    cases i with
    | zero => simp [updateAt, hf]
    | succ n => simp [updateAt, ih]

lemma get_list_index_none (t : Tdo) (name : String) (e : TdoError)
    (h : t.get_list_index name = .error e) :
    ∀ l ∈ t.lists, (lowerStr l.name == lowerStr name) = false := by
  unfold Tdo.get_list_index at h
  rcases hf : findIndex (fun x => lowerStr x.name == lowerStr name) t.lists with _ | i
  · exact (findIndex_eq_none_iff _ _).mp hf
  · rw [hf] at h
    cases h

lemma lowerNames_updateAt (i : Nat) (todo : Todo) (ls : List TodoList) :
    (updateAt i (fun l => l.add todo) ls).map (fun l => lowerStr l.name) =
      ls.map (fun l => lowerStr l.name) :=
  map_updateAt_eq (fun l => l.add todo) (fun l => lowerStr l.name) (fun _ => rfl) i ls

/-- Claim C5, counterexample: the legacy importer performs no uniqueness
check, so the legacy object with the two distinct keys "Work" and "work"
imports successfully into a container whose two list names compare equal
case-insensitively. -/
theorem names_unique_cex :
    update_json (.json (.obj [("Work", .obj []), ("work", .obj [])])) =
      some (.ok ⟨[⟨"Work", []⟩, ⟨"work", []⟩], VERSION⟩) ∧
    ¬ NamesOk ⟨[⟨"Work", []⟩, ⟨"work", []⟩], VERSION⟩ := by
  constructor
  · rfl
  · decide

/-- Claim C5, amended: case-insensitive name uniqueness holds for a fresh
container and is preserved by every mutation operation — `add_list` fails
with `NameAlreadyExists` on a case-insensitive duplicate — but containers
produced by the Legacy Importer need not satisfy it. -/
theorem names_unique_amended :
    NamesOk Tdo.new ∧
    (∀ (t : Tdo) (l : TodoList), (∃ l' ∈ t.lists, lowerStr l'.name = lowerStr l.name) →
      t.add_list l = (.error .NameAlreadyExists, t)) ∧
    (∀ (t : Tdo) (l : TodoList), NamesOk t → NamesOk (t.add_list l).2) ∧
    (∀ (t : Tdo) (name : String), NamesOk t → NamesOk (t.remove_list name).2) ∧
    (∀ (t : Tdo) (name : Option String) (todo : Todo),
      NamesOk t → NamesOk (t.add_todo name todo).2) ∧
    (∀ (t : Tdo) (id : Nat), NamesOk t → NamesOk (t.done_id id)) ∧
    (∀ (t : Tdo) (id : Nat), NamesOk t → NamesOk (t.remove_id id)) ∧
    (∀ t : Tdo, NamesOk t → NamesOk t.clean_lists) := by
  refine ⟨by decide, ?_, ?_, ?_, ?_, ?_, ?_, ?_⟩
  · intro t l ⟨l', hmem, heq⟩
    rcases hidx : t.get_list_index l.name with e | i
    · exfalso
      have := get_list_index_none t l.name e hidx l' hmem
      simp [heq] at this
    · simp [Tdo.add_list, hidx]
  · intro t l h
    rcases hidx : t.get_list_index l.name with e | i
    · have hall := get_list_index_none t l.name e hidx
      simp only [Tdo.add_list, hidx]
      unfold NamesOk at h ⊢
      simp only [List.map_append, List.map_cons, List.map_nil]
      rw [List.nodup_append]
      refine ⟨h, List.nodup_singleton _, ?_⟩
      intro a ha hb
      simp only [List.mem_singleton] at hb
      subst hb
      rcases List.mem_map.mp ha with ⟨l', hl', heq2⟩
      have hf := hall l' hl'
      rw [heq2] at hf
      simp at hf
    · simp only [Tdo.add_list, hidx]
      exact h
  · intro t name h
    by_cases hd : (name == "default") = true
    · simp only [Tdo.remove_list, hd, if_true]
      exact h
    · rcases hidx : t.get_list_index name with e | i
      · simp only [Tdo.remove_list, hd, Bool.false_eq_true, if_false, hidx]
        exact h
      · simp only [Tdo.remove_list, hd, Bool.false_eq_true, if_false, hidx]
        unfold NamesOk at h ⊢
        exact List.Nodup.sublist (List.Sublist.map _ (List.eraseIdx_sublist t.lists i)) h
  · intro t name todo h
    rcases hidx : t.get_list_index (name.getD "default") with e | i
    · simp only [Tdo.add_todo, hidx]
      exact h
    · simp only [Tdo.add_todo, hidx]
      unfold NamesOk at h ⊢
      simpa [lowerNames_updateAt] using h
  · intro t id h
    unfold NamesOk at h ⊢
    simpa [Tdo.done_id, List.map_map, Function.comp] using h
  · intro t id h
    unfold Tdo.remove_id
    rw [foldl_drop_const]
    exact h
  · intro t h
    unfold NamesOk at h ⊢
    simpa [Tdo.clean_lists, List.map_map, Function.comp] using h

/-- Witness for C5 at a concrete container: adding a list with a fresh name
to a fresh container preserves the invariant. -/
theorem names_unique_witness :
    NamesOk (Tdo.new.add_list (TodoList.new "work")).2 :=
  names_unique_amended.2.2.1 Tdo.new (TodoList.new "work") (by decide)

lemma names_updateAt (i : Nat) (todo : Todo) (ls : List TodoList) :
    (updateAt i (fun l => l.add todo) ls).map TodoList.name = ls.map TodoList.name :=
  map_updateAt_eq (fun l => l.add todo) TodoList.name (fun _ => rfl) i ls

lemma mem_eraseIdx_of_findIndex (p : α → Bool) (l : List α) (i : Nat) (a : α)
    (hf : findIndex p l = some i) (ha : a ∈ l) (hpa : p a = false) :
    a ∈ l.eraseIdx i := by
  induction l generalizing i with
  | nil => cases ha
  | cons x xs ih =>
    rcases List.mem_cons.mp ha with rfl | hmem
    · simp only [findIndex, hpa, Bool.false_eq_true, if_false] at hf
      rcases hj : findIndex p xs with _ | j
      · rw [hj] at hf
        cases hf
      · rw [hj] at hf
        simp at hf
        subst hf
        show a ∈ a :: xs.eraseIdx j
        exact List.mem_cons_self a _
    · by_cases hx : p x = true
      · simp only [findIndex, hx, if_true] at hf
        injection hf with hi
        subst hi
        show a ∈ xs
        exact hmem
      · have hx' : p x = false := eq_false_of_ne_true hx
        simp only [findIndex, hx', Bool.false_eq_true, if_false] at hf
        rcases hj : findIndex p xs with _ | j
        · rw [hj] at hf
          cases hf
        · rw [hj] at hf
          simp at hf
          subst hf
          show a ∈ x :: xs.eraseIdx j
          exact List.mem_cons_of_mem x (ih j hj hmem)

/-- Claim C2, amended: a fresh container holds exactly the list named
"default"; `remove_list` with the exact lowercase name "default" always
fails with `CanNotRemoveDefault`, leaving the container unchanged; and no
other operation removes the default list: `remove_list` with any name that
does not lowercase to "default", as well as `add_list`, `add_todo`,
`done_id`, `remove_id` and `clean_lists`, all leave a list named "default"
present whenever one was present. Only `remove_list` with a non-lowercase
casing of "default" can remove it (the counterexample), and containers
built by the legacy importer contain only the lists named in the legacy
file. -/
theorem remove_list_default_amended :
    Tdo.new.lists.map TodoList.name = ["default"] ∧
    (∀ t : Tdo, t.remove_list "default" = (.error .CanNotRemoveDefault, t)) ∧
    (∀ (t : Tdo) (name : String), lowerStr name ≠ lowerStr "default" →
      (∃ l ∈ t.lists, l.name = "default") →
      ∃ l ∈ (t.remove_list name).2.lists, l.name = "default") ∧
    (∀ (t : Tdo) (l' : TodoList), (∃ l ∈ t.lists, l.name = "default") →
      ∃ l ∈ (t.add_list l').2.lists, l.name = "default") ∧
    (∀ (t : Tdo) (n : Option String) (todo : Todo),
      (∃ l ∈ t.lists, l.name = "default") →
      ∃ l ∈ (t.add_todo n todo).2.lists, l.name = "default") ∧
    (∀ (t : Tdo) (id : Nat), (∃ l ∈ t.lists, l.name = "default") →
      ∃ l ∈ (t.done_id id).lists, l.name = "default") ∧
    (∀ (t : Tdo) (id : Nat), (∃ l ∈ t.lists, l.name = "default") →
      ∃ l ∈ (t.remove_id id).lists, l.name = "default") ∧
    (∀ t : Tdo, (∃ l ∈ t.lists, l.name = "default") →
      ∃ l ∈ t.clean_lists.lists, l.name = "default") := by
  refine ⟨rfl, fun t => by simp [Tdo.remove_list], ?_, ?_, ?_, ?_, ?_, ?_⟩
  · intro t name hne ⟨l₀, hmem, hname⟩
    by_cases hd : (name == "default") = true
    · simp only [Tdo.remove_list, hd, if_true]
      exact ⟨l₀, hmem, hname⟩
    · rcases hidx : t.get_list_index name with e | i
      · simp only [Tdo.remove_list, hd, Bool.false_eq_true, if_false, hidx]
        exact ⟨l₀, hmem, hname⟩
      · simp only [Tdo.remove_list, hd, Bool.false_eq_true, if_false, hidx]
        refine ⟨l₀, ?_, hname⟩
        have hfi : findIndex (fun x => lowerStr x.name == lowerStr name) t.lists = some i := by
          unfold Tdo.get_list_index at hidx
          rcases hf : findIndex (fun x => lowerStr x.name == lowerStr name) t.lists with _ | j
          · rw [hf] at hidx
            cases hidx
          · rw [hf] at hidx
            injection hidx with h'
            rw [← h']
            exact hf
        have hp : (lowerStr l₀.name == lowerStr name) = false := by
          rw [hname]
          exact beq_eq_false_iff_ne.mpr (Ne.symm hne)
        exact mem_eraseIdx_of_findIndex _ t.lists i l₀ hfi hmem hp
  · intro t l' ⟨l₀, hmem, hname⟩
    rcases hidx : t.get_list_index l'.name with e | i
    · simp only [Tdo.add_list, hidx]
      exact ⟨l₀, List.mem_append_left _ hmem, hname⟩
    · simp only [Tdo.add_list, hidx]
      exact ⟨l₀, hmem, hname⟩
  · intro t n todo ⟨l₀, hmem, hname⟩
    rcases hidx : t.get_list_index (n.getD "default") with e | i
    · simp only [Tdo.add_todo, hidx]
      exact ⟨l₀, hmem, hname⟩
    · simp only [Tdo.add_todo, hidx]
      have h1 : "default" ∈ t.lists.map TodoList.name :=
        List.mem_map.mpr ⟨l₀, hmem, hname⟩
      have h2 : "default" ∈ (updateAt i (fun l => l.add todo) t.lists).map TodoList.name := by
        rw [names_updateAt]
        exact h1
      rcases List.mem_map.mp h2 with ⟨l₁, hmem1, hname1⟩
      exact ⟨l₁, hmem1, hname1⟩
  · intro t id ⟨l₀, hmem, hname⟩
    exact ⟨l₀.done_id id, List.mem_map_of_mem _ hmem, hname⟩
  · intro t id h
    unfold Tdo.remove_id
    rw [foldl_drop_const]
    exact h
  · intro t ⟨l₀, hmem, hname⟩
    exact ⟨l₀.clean, List.mem_map_of_mem _ hmem, hname⟩

/-- Witness for C2 at a concrete container: removing the list "work" from a
container holding the default list and "work" leaves a list named "default"
present. -/
theorem remove_list_default_witness :
    ∃ l ∈ ((⟨[TodoList.mkDefault, TodoList.new "work"], VERSION⟩ : Tdo).remove_list
      "work").2.lists, l.name = "default" :=
  remove_list_default_amended.2.2.1
    ⟨[TodoList.mkDefault, TodoList.new "work"], VERSION⟩ "work"
    (by decide) ⟨TodoList.mkDefault, by decide, rfl⟩

/-- Claim C10: `add_todo` with no list name behaves exactly as with the name
"default"; when some list case-insensitively named "default" is present the
call succeeds, appending the item to the first such list; and with a name
matching no list it fails with `NoSuchList`, leaving the container
unchanged. -/
theorem add_todo_resolution :
    (∀ (t : Tdo) (todo : Todo), t.add_todo none todo = t.add_todo (some "default") todo) ∧
    (∀ (t : Tdo) (todo : Todo) (i : Nat),
        findIndex (fun l => lowerStr l.name == lowerStr "default") t.lists = some i →
        t.add_todo none todo =
          (.ok (), ⟨updateAt i (fun l => l.add todo) t.lists, t.version⟩)) ∧
    (∀ (t : Tdo) (todo : Todo),
        (∃ l ∈ t.lists, lowerStr l.name = lowerStr "default") →
        (t.add_todo none todo).1 = .ok ()) ∧
    (∀ (t : Tdo) (name : String) (todo : Todo),
        (∀ l ∈ t.lists, lowerStr l.name ≠ lowerStr name) →
        t.add_todo (some name) todo = (.error .NoSuchList, t)) := by
  refine ⟨fun t todo => rfl, ?_, ?_, ?_⟩
  · intro t todo i hf
    have hok : t.get_list_index "default" = .ok i := by
      unfold Tdo.get_list_index
      rw [hf]
    simp [Tdo.add_todo, Option.getD_none, hok]
  · intro t todo ⟨l, hl, heq⟩
    rcases hf : findIndex (fun x => lowerStr x.name == lowerStr "default") t.lists with _ | i
    · exfalso
      have := (findIndex_eq_none_iff _ _).mp hf l hl
      simp [heq] at this
    · have hok : t.get_list_index "default" = .ok i := by
        unfold Tdo.get_list_index
        rw [hf]
      simp [Tdo.add_todo, Option.getD_none, hok]
  · intro t name todo hall
    have hf : findIndex (fun x => lowerStr x.name == lowerStr name) t.lists = none :=
      (findIndex_eq_none_iff _ _).mpr
        (fun l hl => beq_eq_false_iff_ne.mpr (hall l hl))
    have herr : t.get_list_index name = .error .NoSuchList := by
      unfold Tdo.get_list_index
      rw [hf]
    simp [Tdo.add_todo, Option.getD_some, herr]

/-- Witness for C10: on a fresh container, `add_todo` with no list name
appends the item to the default list at index 0. -/
theorem add_todo_resolution_witness :
    Tdo.new.add_todo none ⟨1, "a", false⟩ =
      (.ok (), ⟨updateAt 0 (fun l => l.add ⟨1, "a", false⟩) Tdo.new.lists, Tdo.new.version⟩) :=
  add_todo_resolution.2.1 Tdo.new ⟨1, "a", false⟩ 0 (by decide)

lemma traverseOpt_map (f : β → Option α) (g : α → β) (l : List α)
    (h : ∀ x ∈ l, f (g x) = some x) : traverseOpt f (l.map g) = some l := by
  induction l with
  | nil => rfl
  | cons x xs ih =>
    have hx := h x (List.mem_cons_self x xs)
    have hxs := ih (fun y hy => h y (List.mem_cons_of_mem x hy))
    simp [traverseOpt, hx, hxs]

lemma decode_encode_todo (td : Todo) (h : td.id < 4294967296) :
    decodeTodo (encodeTodo td) = some td := by
  show (if 0 ≤ (td.id : Int) ∧ (td.id : Int) < 4294967296
      then some ⟨(td.id : Int).toNat, td.name, td.done⟩ else none) = some td
  rw [if_pos ⟨Int.natCast_nonneg td.id, by exact_mod_cast h⟩]
  simp

lemma decode_encode_list (l : TodoList) (h : ∀ td ∈ l.list, td.id < 4294967296) :
    decodeTodoList (encodeTodoList l) = some l := by
  show (match traverseOpt decodeTodo (l.list.map encodeTodo) with
    | some todos => some ⟨l.name, todos⟩
    | none => none) = some l
  rw [traverseOpt_map decodeTodo encodeTodo l.list
    (fun td htd => decode_encode_todo td (h td htd))]

lemma decode_encode_tdo (t : Tdo)
    (h : ∀ l ∈ t.lists, ∀ td ∈ l.list, td.id < 4294967296) :
    decodeTdo (encodeTdo t) = some t := by
  show (match traverseOpt decodeTodoList (t.lists.map encodeTodoList) with
    | some lists => some ⟨lists, t.version⟩
    | none => none) = some t
  rw [traverseOpt_map decodeTodoList encodeTodoList t.lists
    (fun l hl => decode_encode_list l (h l hl))]

/-- Claim C9: for every container (all item ids fit in `u32`, as `u32`
guarantees in the source), saving to a creatable path succeeds and loading
the written file back succeeds with a container deeply equal to the one
saved — same list names and order, same item ids, names, done flags and
order, same version tag. -/
theorem save_load_roundtrip (t : Tdo)
    (h : ∀ l ∈ t.lists, ∀ td ∈ l.list, td.id < 4294967296) :
    (t.save true).1 = .ok () ∧ Tdo.load (t.save true).2 = some (.ok t) := by
  refine ⟨rfl, ?_⟩
  have hd : serdeRead (.json (encodeTdo t)) = some t := decode_encode_tdo t h
  simp [Tdo.save, Tdo.load, hd]

/-- Witness for C9 at a concrete container with one non-default list and
items with both flag values. -/
theorem save_load_roundtrip_witness :
    Tdo.load ((⟨[⟨"default", [⟨7, "milk", true⟩]⟩, ⟨"work", [⟨8, "ship", false⟩]⟩],
      "0.2.0"⟩ : Tdo).save true).2 =
      some (.ok ⟨[⟨"default", [⟨7, "milk", true⟩]⟩, ⟨"work", [⟨8, "ship", false⟩]⟩],
        "0.2.0"⟩) :=
  (save_load_roundtrip
    ⟨[⟨"default", [⟨7, "milk", true⟩]⟩, ⟨"work", [⟨8, "ship", false⟩]⟩], "0.2.0"⟩
    (by decide)).2

lemma pop_concat (xs : List Json) (x : Json) :
    Json.pop (.arr (xs ++ [x])) = (x, .arr xs) := by
  simp [Json.pop, List.getLast?_concat, List.dropLast_concat]

lemma concat_inj (xs ys : List α) (a b : α) (h : xs ++ [a] = ys ++ [b]) :
    xs = ys ∧ a = b := by
  have h2 := List.append_inj' h rfl
  exact ⟨h2.1, by simpa using h2.2⟩

lemma new_done_eq (tid : Nat) (nm : String) (d : Bool) :
    (if d then (Todo.new tid nm).set_done else Todo.new tid nm) = ⟨tid, nm, d⟩ := by
  cases d <;> rfl

/-- Claim C4, counterexample: the importer accepts the 3-element value
`["junk", "buy", true]` — it only pops the trailing boolean and the text
before it, ignoring any earlier elements — so a value that is not exactly a
2-element structure does not fail with `UnableToConvert`. -/
theorem legacy_item_shape_cex :
    update_json (.json (.obj [("work", .obj
        [("1", .arr [.str "junk", .str "buy", .bool true])])])) =
      some (.ok ⟨[⟨"work", [⟨1, "buy", true⟩]⟩], VERSION⟩) := by
  rfl

/-- Claim C4, amended: for an item whose key parses as a `u32`, the importer
accepts its value exactly when the value is an array whose last element is a
boolean (taken as `done`) and whose second-to-last element is text (taken as
the name), regardless of how many further elements precede them; every other
shape fails with `UnableToConvert`. -/
theorem legacy_item_shape (key : String) (tid : Nat) (hkey : parseU32 key = some tid)
    (v : Json) (td : Todo) :
    legacyTodo key v = some td ↔
      ∃ front name done, v = Json.arr (front ++ [Json.str name, Json.bool done]) ∧
        td = ⟨tid, name, done⟩ := by
  unfold legacyTodo
  rw [hkey]
  rcases v with _ | b | n | s | es | fields
  case null => simp [Json.pop]
  case bool => simp [Json.pop]
  case num => simp [Json.pop]
  case str => simp [Json.pop]
  case obj => simp [Json.pop]
  case arr =>
  rcases List.eq_nil_or_concat es with rfl | ⟨L, x, rfl⟩
  · constructor
    · intro h
      simp [Json.pop] at h
    · rintro ⟨front, nm, d, hv, _⟩
      injection hv with hv'
      have := congrArg List.length hv'
      simp at this
  · rw [List.concat_eq_append]
    cases x
    case bool d =>
      rcases List.eq_nil_or_concat L with rfl | ⟨M, y, rfl⟩
      · constructor
        · intro h
          simp only [pop_concat] at h
          simp [Json.pop] at h
        · rintro ⟨front, nm', d', hv, _⟩
          injection hv with hv'
          have := congrArg List.length hv'
          simp at this
      · rw [List.concat_eq_append]
        cases y
        case str nm =>
          simp only [pop_concat, new_done_eq]
          constructor
          · intro h
            injection h with h'
            exact ⟨M, nm, d, by rw [List.append_assoc]; rfl, h'.symm⟩
          · rintro ⟨front, nm', d', hv, htd⟩
            injection hv with hv'
            have h1 := concat_inj _ _ _ _
              (hv'.trans (List.append_assoc front [Json.str nm'] [Json.bool d']).symm)
            have h2 := concat_inj _ _ _ _ h1.1
            injection h1.2 with hd
            injection h2.2 with hn
            rw [htd, hn, hd]
        all_goals
          simp only [pop_concat]
          constructor
          · intro h
            cases h
          · rintro ⟨front, nm', d', hv, _⟩
            injection hv with hv'
            have h1 := concat_inj _ _ _ _
              (hv'.trans (List.append_assoc front [Json.str nm'] [Json.bool d']).symm)
            have h2 := concat_inj _ _ _ _ h1.1
            cases h2.2
    all_goals
      simp only [pop_concat]
      constructor
      · intro h
        cases h
      · rintro ⟨front, nm', d', hv, _⟩
        injection hv with hv'
        have h1 := concat_inj _ _ _ _
          (hv'.trans (List.append_assoc front [Json.str nm'] [Json.bool d']).symm)
        cases h1.2

/-- Witness for C4: the key "1" parses as id 1, and a 2-element value with a
text then a boolean is accepted, yielding the item (1, "a", done). -/
theorem legacy_item_shape_witness :
    legacyTodo "1" (.arr [.str "a", .bool true]) = some ⟨1, "a", true⟩ :=
  (legacy_item_shape "1" 1 (by decide) (.arr [.str "a", .bool true])
    ⟨1, "a", true⟩).mpr ⟨[], "a", true, rfl, rfl⟩
